import Mathlib

/-!
Shallow embedding of the off-chain bookkeeping core of the cross-chain
liquidity-bridge protocol (HubPoolClient, UBAFeeCalculator and the
deposit-id block-range resolver), together with proofs of the behavioural
properties stated in the specification.

Conventions of the embedding:
* JavaScript numbers are modelled as `Int` (all quantities involved are
  integers: block numbers, chain ids, deposit counts, token decimals,
  amounts).  `ethers.BigNumber` values are likewise modelled as `Int` and
  `toBN` / `.toNumber()` conversions become the identity.
* Arrays become `List`s; `Array.prototype.filter/find/indexOf` become the
  corresponding `List` operations; lodash `_.findLast` / `_.findLastIndex`
  are modelled by searching the reversed list.
* Exceptions (`throw new Error(msg)`) become `Except String` results with
  the thrown message preserved verbatim.
* `undefined`-able values become `Option`s.
-/

namespace Across

/-- Decidable equality on `Except`, needed to evaluate the embedded
fallible functions on concrete inputs inside proofs. -/
instance instDecidableEqExcept [DecidableEq ε] [DecidableEq α] :
    DecidableEq (Except ε α) := fun a b =>
  match a, b with
  | .error e, .error f =>
    if h : e = f then .isTrue (by rw [h]) else .isFalse (by intro hc; cases hc; exact h rfl)
  | .error _, .ok _ => .isFalse (by intro hc; cases hc)
  | .ok _, .error _ => .isFalse (by intro hc; cases hc)
  | .ok x, .ok y =>
    if h : x = y then .isTrue (by rw [h]) else .isFalse (by intro hc; cases hc; exact h rfl)

/-- JavaScript `Array.prototype.indexOf`: index of the first occurrence of
`x`, or `-1` when `x` does not occur. -/
def jsIndexOf [BEq α] (l : List α) (x : α) : Int :=
  match l.findIdx? (· == x) with
  | none => -1
  | some i => (i : Int)

/-- Lodash `_.findLast`: the last element of `l` satisfying `p`, if any. -/
def jsFindLast (p : α → Bool) (l : List α) : Option α :=
  l.reverse.find? p

/-- Lodash `_.findLastIndex`: index of the last element satisfying `p`, or
`-1` when no element does. -/
def jsFindLastIndex (p : α → Bool) (l : List α) : Int :=
  match l.reverse.findIdx? p with
  | none => -1
  | some i => (l.length : Int) - 1 - (i : Int)

/-! ## Data model (src/src/interfaces, restricted to the fields the
embedded functions read) -/

/-- A `ProposeRootBundle` event as stored by the client. -/
structure ProposedRootBundle where
  blockNumber : Int
  transactionIndex : Int
  logIndex : Int
  poolRebalanceLeafCount : Int
  bundleEvaluationBlockNumbers : List Int
deriving DecidableEq, Repr

/-- A `RootBundleExecuted` event (one executed pool-rebalance leaf). -/
structure ExecutedRootBundle where
  blockNumber : Int
  transactionIndex : Int
  logIndex : Int
  chainId : Int
  l1Tokens : List String
  runningBalances : List Int
deriving DecidableEq, Repr

/-- Token metadata fetched from an ERC20 contract. -/
structure L1Token where
  address : String
  symbol : String
  decimals : Int
deriving DecidableEq, Repr

/-- The portion of `HubPoolClient`'s mutable state that the embedded query
methods read.  `latestBlockNumber` is `undefined` until `update()` has run,
hence an `Option`. -/
structure HubPoolState where
  proposedRootBundles : List ProposedRootBundle
  executedRootBundles : List ExecutedRootBundle
  latestBlockNumber : Option Int
deriving DecidableEq, Repr

/-! ## HubPoolClient bundle queries (src/src/clients/AcrossHubPoolClient.ts) -/

/-- `HubPoolClient.getFollowingRootBundle`: the bundle that follows, in
append order, the last proposed bundle sharing `currentRootBundle`'s block
number; `none` when there is no such bundle or it would be past the end. -/
def getFollowingRootBundle (st : HubPoolState) (currentRootBundle : ProposedRootBundle) :
    Option ProposedRootBundle :=
  let index := jsFindLastIndex
    (fun bundle => bundle.blockNumber == currentRootBundle.blockNumber)
    st.proposedRootBundles
  if index == -1 || index == (st.proposedRootBundles.length : Int) - 1 then
    none
  else
    st.proposedRootBundles.get? (index + 1).toNat

/-- `HubPoolClient.getExecutedLeavesForRootBundle`: executed leaves with
block number at most `latestMainnetBlockToSearch` and strictly greater than
the proposal's block number. -/
def getExecutedLeavesForRootBundle (st : HubPoolState) (rootBundle : ProposedRootBundle)
    (latestMainnetBlockToSearch : Int) : List ExecutedRootBundle :=
  st.executedRootBundles.filter fun executedLeaf =>
    decide (executedLeaf.blockNumber ≤ latestMainnetBlockToSearch) &&
      decide (executedLeaf.blockNumber > rootBundle.blockNumber)

/-- `HubPoolClient.isRootBundleValid`: all pool rebalance leaves executed
before the next bundle or the latest mainnet block, whichever comes
first. -/
def isRootBundleValid (st : HubPoolState) (rootBundle : ProposedRootBundle)
    (latestMainnetBlock : Int) : Bool :=
  let nextRootBundle := getFollowingRootBundle st rootBundle
  let executedLeafCount := getExecutedLeavesForRootBundle st rootBundle
    (match nextRootBundle with
     | some next => min next.blockNumber latestMainnetBlock
     | none => latestMainnetBlock)
  (executedLeafCount.length : Int) == rootBundle.poolRebalanceLeafCount

/-- The latest-mainnet-block bound actually used by `isRootBundleValid`:
the following bundle's block number capped by the horizon when a following
bundle exists, the horizon alone otherwise. -/
def validityHorizon (st : HubPoolState) (rootBundle : ProposedRootBundle)
    (latestMainnetBlock : Int) : Int :=
  match getFollowingRootBundle st rootBundle with
  | some next => min next.blockNumber latestMainnetBlock
  | none => latestMainnetBlock

/-- C1: `isRootBundleValid(bundle, horizon)` returns true iff the number of
`ExecutedRootBundle` events with block number strictly greater than the
bundle's and at most `min(next-bundle.blockNumber, horizon)` (just `horizon`
when no following bundle exists) equals the bundle's
`poolRebalanceLeafCount`. -/
theorem isRootBundleValid_iff_executed_leaf_count (st : HubPoolState)
    (rootBundle : ProposedRootBundle) (latestMainnetBlock : Int) :
    isRootBundleValid st rootBundle latestMainnetBlock = true ↔
      ((st.executedRootBundles.countP fun e =>
          decide (rootBundle.blockNumber < e.blockNumber ∧
            e.blockNumber ≤ validityHorizon st rootBundle latestMainnetBlock)) : Int) =
        rootBundle.poolRebalanceLeafCount := by
  unfold isRootBundleValid getExecutedLeavesForRootBundle validityHorizon
  rw [beq_iff_eq, List.countP_eq_length_filter]
  have hpred : (fun executedLeaf : ExecutedRootBundle =>
      decide (executedLeaf.blockNumber ≤
          (match getFollowingRootBundle st rootBundle with
           | some next => min next.blockNumber latestMainnetBlock
           | none => latestMainnetBlock)) &&
        decide (executedLeaf.blockNumber > rootBundle.blockNumber)) =
      fun e : ExecutedRootBundle =>
        decide (rootBundle.blockNumber < e.blockNumber ∧
          e.blockNumber ≤
            (match getFollowingRootBundle st rootBundle with
             | some next => min next.blockNumber latestMainnetBlock
             | none => latestMainnetBlock)) := by
    funext e
    by_cases h1 : e.blockNumber ≤
        (match getFollowingRootBundle st rootBundle with
         | some next => min next.blockNumber latestMainnetBlock
         | none => latestMainnetBlock) <;>
      by_cases h2 : rootBundle.blockNumber < e.blockNumber <;>
      simp [h1, h2]
  rw [hpred]

/-- `HubPoolClient.getLatestFullyExecutedRootBundle`: the last proposed
bundle at or before `latestMainnetBlock` that is fully executed
(`_.findLast` over the proposal log). -/
def getLatestFullyExecutedRootBundle (st : HubPoolState) (latestMainnetBlock : Int) :
    Option ProposedRootBundle :=
  jsFindLast (fun rootBundle =>
      if rootBundle.blockNumber > latestMainnetBlock then false
      else isRootBundleValid st rootBundle latestMainnetBlock)
    st.proposedRootBundles

/-- `HubPoolClient.getEarliestFullyExecutedRootBundle`: the first proposed
bundle between `startBlock` and `latestMainnetBlock` that is fully
executed. -/
def getEarliestFullyExecutedRootBundle (st : HubPoolState) (latestMainnetBlock : Int)
    (startBlock : Int) : Option ProposedRootBundle :=
  st.proposedRootBundles.find? fun rootBundle =>
    if rootBundle.blockNumber > latestMainnetBlock then false
    else if rootBundle.blockNumber < startBlock then false
    else isRootBundleValid st rootBundle latestMainnetBlock

/-- JavaScript truthiness of `!this.latestBlockNumber`: true when the field
is still `undefined` (client never updated) and also when it is `0`. -/
def latestBlockUnset (st : HubPoolState) : Bool :=
  match st.latestBlockNumber with
  | none => true
  | some v => v == 0

/-- The `n < 0` loop of `getNthFullyExecutedRootBundle`: take `k` backward
steps, each looking up the latest fully executed bundle below the current
horizon and then lowering the horizon to `max 0 (blockNumber - 1)`. -/
def nthLatestHelper (st : HubPoolState) : Nat → Int → Option ProposedRootBundle
  | 0, _ => none
  | k + 1, nextLatestMainnetBlock =>
    let bundleToReturn := getLatestFullyExecutedRootBundle st nextLatestMainnetBlock
    let bundleBlockNumber := match bundleToReturn with
      | some b => b.blockNumber
      | none => 0
    if k == 0 then bundleToReturn
    else nthLatestHelper st k (max 0 (bundleBlockNumber - 1))

/-- The `n > 0` loop of `getNthFullyExecutedRootBundle`: take `k` forward
steps, each looking up the earliest fully executed bundle above the current
start block and then raising the start block to
`min (blockNumber + 1) latestBlockNumber`. -/
def nthEarliestHelper (st : HubPoolState) (latest : Int) : Nat → Int → Option ProposedRootBundle
  | 0, _ => none
  | k + 1, nextStartBlock =>
    let bundleToReturn := getEarliestFullyExecutedRootBundle st latest nextStartBlock
    let bundleBlockNumber := match bundleToReturn with
      | some b => b.blockNumber
      | none => 0
    if k == 0 then bundleToReturn
    else nthEarliestHelper st latest k (min (bundleBlockNumber + 1) latest)

/-- `HubPoolClient.getNthFullyExecutedRootBundle`: the Nth latest (n < 0)
or Nth earliest (n > 0) fully executed bundle, optionally anchored at
`startBlock`.  Throws for `n = 0` and for a never-updated client. -/
def getNthFullyExecutedRootBundle (st : HubPoolState) (n : Int) (startBlock : Option Int) :
    Except String (Option ProposedRootBundle) :=
  if n == 0 then .error "n cannot be 0"
  else if latestBlockUnset st then
    .error "HubPoolClient::getNthFullyExecutedRootBundle client not updated"
  else
    let latest := st.latestBlockNumber.getD 0
    if n < 0 then .ok (nthLatestHelper st n.natAbs (startBlock.getD latest))
    else .ok (nthEarliestHelper st latest n.natAbs (startBlock.getD 0))

/-- Any bundle returned by `getLatestFullyExecutedRootBundle` satisfies the
predicate it was selected by. -/
theorem getLatestFullyExecutedRootBundle_pred {st : HubPoolState} {latest : Int}
    {b : ProposedRootBundle} (h : getLatestFullyExecutedRootBundle st latest = some b) :
    b.blockNumber ≤ latest ∧ isRootBundleValid st b latest = true := by
  unfold getLatestFullyExecutedRootBundle jsFindLast at h
  have hp := List.find?_some h
  by_cases hb : b.blockNumber > latest
  · simp [hb] at hp
  · simp [hb] at hp
    exact ⟨by omega, hp⟩

/-! ### Concrete ledger for the walk example: three valid bundles proposed
at blocks 10, 20 and 30, each with a single pool rebalance leaf executed
one block after its proposal. -/

/-- Bundle proposed at block 10 with one rebalance leaf. -/
def bundleAt10 : ProposedRootBundle :=
  { blockNumber := 10, transactionIndex := 0, logIndex := 0,
    poolRebalanceLeafCount := 1, bundleEvaluationBlockNumbers := [100] }

/-- Bundle proposed at block 20 with one rebalance leaf. -/
def bundleAt20 : ProposedRootBundle :=
  { blockNumber := 20, transactionIndex := 0, logIndex := 0,
    poolRebalanceLeafCount := 1, bundleEvaluationBlockNumbers := [200] }

/-- Bundle proposed at block 30 with one rebalance leaf. -/
def bundleAt30 : ProposedRootBundle :=
  { blockNumber := 30, transactionIndex := 0, logIndex := 0,
    poolRebalanceLeafCount := 1, bundleEvaluationBlockNumbers := [300] }

/-- Executed leaf of the bundle proposed at block 10. -/
def leafAt11 : ExecutedRootBundle :=
  { blockNumber := 11, transactionIndex := 0, logIndex := 0,
    chainId := 1, l1Tokens := ["0xAAA"], runningBalances := [7] }

/-- Executed leaf of the bundle proposed at block 20. -/
def leafAt21 : ExecutedRootBundle :=
  { blockNumber := 21, transactionIndex := 0, logIndex := 0,
    chainId := 1, l1Tokens := ["0xAAA"], runningBalances := [8] }

/-- Executed leaf of the bundle proposed at block 30. -/
def leafAt31 : ExecutedRootBundle :=
  { blockNumber := 31, transactionIndex := 0, logIndex := 0,
    chainId := 1, l1Tokens := ["0xAAA"], runningBalances := [9] }

/-- Ledger holding exactly the three valid bundles at blocks 10, 20, 30. -/
def ledgerThree : HubPoolState :=
  { proposedRootBundles := [bundleAt10, bundleAt20, bundleAt30],
    executedRootBundles := [leafAt11, leafAt21, leafAt31],
    latestBlockNumber := some 100 }

/-- C5: `getNthFullyExecutedRootBundle` fails with InvalidArgument for
`n = 0`; every backward match is a valid bundle within the current horizon,
so with the horizon lowered to the previous match's block number minus one,
the next match is strictly older (no bundle counted twice); when
`startBlock` is given the walk is anchored there, otherwise at the latest
known block; on the three-valid-bundle ledger, `n = -1` returns the bundle
at block 30 and `n = -2` the bundle at block 20. -/
theorem getNthFullyExecutedRootBundle_backward_walk :
    (∀ st startBlock, getNthFullyExecutedRootBundle st 0 startBlock = .error "n cannot be 0")
    ∧ (∀ st latest b, getLatestFullyExecutedRootBundle st latest = some b →
        b.blockNumber ≤ latest ∧ isRootBundleValid st b latest = true)
    ∧ (∀ st latest b b', getLatestFullyExecutedRootBundle st latest = some b →
        1 ≤ b.blockNumber →
        getLatestFullyExecutedRootBundle st (max 0 (b.blockNumber - 1)) = some b' →
        b'.blockNumber < b.blockNumber)
    ∧ getNthFullyExecutedRootBundle ledgerThree (-1) none = .ok (some bundleAt30)
    ∧ getNthFullyExecutedRootBundle ledgerThree (-2) none = .ok (some bundleAt20)
    ∧ (∀ st v s, st.latestBlockNumber = some v → (v == 0) = false →
        getNthFullyExecutedRootBundle st (-1) (some s) =
          .ok (getLatestFullyExecutedRootBundle st s)) := by
  refine ⟨?_, ?_, ?_, ?_, ?_, ?_⟩
  · intro st startBlock
    simp [getNthFullyExecutedRootBundle]
  · intro st latest b h
    exact getLatestFullyExecutedRootBundle_pred h
  · intro st latest b b' hb hpos hb'
    have h1 := (getLatestFullyExecutedRootBundle_pred hb').1
    omega
  · decide
  · decide
  · intro st v s hv hvz
    simp [getNthFullyExecutedRootBundle, latestBlockUnset, hv, hvz,
      nthLatestHelper]

/-- Witness for C5: one backward step of the walk anchored at the explicit
start block 29 on the concrete ledger. -/
theorem getNthFullyExecutedRootBundle_backward_walk_witness :
    getNthFullyExecutedRootBundle ledgerThree (-1) (some 29) =
      .ok (getLatestFullyExecutedRootBundle ledgerThree 29) :=
  getNthFullyExecutedRootBundle_backward_walk.2.2.2.2.2 ledgerThree 100 29
    (by decide) (by decide)

/-- C10: for nonzero `n`, a never-updated client (unset latest block
number) makes `getNthFullyExecutedRootBundle` fail, and the `n = 0`
InvalidArgument check fires even on a never-updated client, i.e. it is
performed first. -/
theorem getNthFullyExecutedRootBundle_requires_update :
    (∀ st n startBlock, (n == 0) = false → st.latestBlockNumber = none →
        getNthFullyExecutedRootBundle st n startBlock =
          .error "HubPoolClient::getNthFullyExecutedRootBundle client not updated")
    ∧ (∀ st startBlock, st.latestBlockNumber = none →
        getNthFullyExecutedRootBundle st 0 startBlock = .error "n cannot be 0") := by
  constructor
  · intro st n startBlock hn hnone
    simp [getNthFullyExecutedRootBundle, latestBlockUnset, hn, hnone]
  · intro st startBlock _
    simp [getNthFullyExecutedRootBundle]

/-- Witness for C10: the checks fire on a concrete never-updated ledger. -/
theorem getNthFullyExecutedRootBundle_requires_update_witness :
    getNthFullyExecutedRootBundle
        { proposedRootBundles := [], executedRootBundles := [], latestBlockNumber := none }
        (-1) none =
      .error "HubPoolClient::getNthFullyExecutedRootBundle client not updated" :=
  getNthFullyExecutedRootBundle_requires_update.1
    { proposedRootBundles := [], executedRootBundles := [], latestBlockNumber := none }
    (-1) none (by decide) rfl

/-- `HubPoolClient.getBundleEndBlockForChain`: looks up `chainId` in
`chainIdList` and returns the entry of the proposal's
`bundleEvaluationBlockNumbers` at that index, or 0 when the chain is absent
or the index is beyond the (possibly shorter) array. -/
def getBundleEndBlockForChain (proposeRootBundleEvent : ProposedRootBundle)
    (chainId : Int) (chainIdList : List Int) : Int :=
  let bundleEvaluationBlockNumbers := proposeRootBundleEvent.bundleEvaluationBlockNumbers
  let chainIdIndex := jsIndexOf chainIdList chainId
  if chainIdIndex == -1 then 0
  else if chainIdIndex ≥ (bundleEvaluationBlockNumbers.length : Int) then 0
  else bundleEvaluationBlockNumbers.getD chainIdIndex.toNat 0

/-- C8: `getBundleEndBlockForChain` returns the element of
`bundleEvaluationBlockNumbers` at index `chainIdList.indexOf(chain)`, and 0
both when the chain is absent from the list and when that index is not
smaller than the evaluation-block array's length. -/
theorem getBundleEndBlockForChain_spec (proposeRootBundleEvent : ProposedRootBundle)
    (chainId : Int) (chainIdList : List Int) :
    (chainIdList.findIdx? (· == chainId) = none →
      getBundleEndBlockForChain proposeRootBundleEvent chainId chainIdList = 0)
    ∧ (∀ i, chainIdList.findIdx? (· == chainId) = some i →
        (proposeRootBundleEvent.bundleEvaluationBlockNumbers.length ≤ i →
          getBundleEndBlockForChain proposeRootBundleEvent chainId chainIdList = 0)
        ∧ (i < proposeRootBundleEvent.bundleEvaluationBlockNumbers.length →
          getBundleEndBlockForChain proposeRootBundleEvent chainId chainIdList =
            proposeRootBundleEvent.bundleEvaluationBlockNumbers.getD i 0)) := by
  constructor
  · intro hnone
    simp [getBundleEndBlockForChain, jsIndexOf, hnone]
  · intro i hi
    constructor
    · intro hlen
      have hne : ((i : Int) == -1) = false := by
        simp only [beq_eq_false_iff_ne, ne_eq]
        omega
      simp [getBundleEndBlockForChain, jsIndexOf, hi, hne]
      omega
    · intro hlt
      have hne : ((i : Int) == -1) = false := by
        simp only [beq_eq_false_iff_ne, ne_eq]
        omega
      have hge : ¬((i : Int) ≥ (proposeRootBundleEvent.bundleEvaluationBlockNumbers.length : Int)) := by
        omega
      simp [getBundleEndBlockForChain, jsIndexOf, hi, hne, hge]

/-- Witness for C8: lookups on a concrete bundle and chain list, one hit
and one miss. -/
theorem getBundleEndBlockForChain_spec_witness :
    getBundleEndBlockForChain bundleAt10 1 [1, 10] = 100
    ∧ getBundleEndBlockForChain bundleAt10 10 [1, 10] = 0 := by
  constructor
  · exact ((getBundleEndBlockForChain_spec bundleAt10 1 [1, 10]).2 0 (by decide)).2
      (by decide)
  · exact ((getBundleEndBlockForChain_spec bundleAt10 10 [1, 10]).2 1 (by decide)).1
      (by decide)

/-! ## UBA fee calculator (src/src/UBAFeeCalculator/UBAFeeCalculator.ts and
the flow-tag predicates of src/src/interfaces) -/

/-- One entry of `recentRequestFlow`.  `quoteTimestamp` is defined exactly
on deposit (inflow) records, `isSlowRelay` exactly on fill records and
`fillBlock` exactly on refund-request records; the embedding keeps each as
an `Option` so that "field is defined" is `Option.isSome`. -/
structure UbaFlow where
  amount : Int
  quoteTimestamp : Option Int
  isSlowRelay : Option Bool
  fillBlock : Option Int
deriving DecidableEq, Repr

/-- `isUbaInflow`: the record carries a quote timestamp. -/
def isUbaInflow (flow : UbaFlow) : Bool :=
  flow.quoteTimestamp.isSome

/-- `outflowIsFill`: the record carries the slow-relay-completion marker. -/
def outflowIsFill (outflow : UbaFlow) : Bool :=
  outflow.isSlowRelay.isSome

/-- `outflowIsRefund`: the record carries the refund-settlement marker. -/
def outflowIsRefund (outflow : UbaFlow) : Bool :=
  outflow.fillBlock.isSome

/-- `isUbaOutflow`: not an inflow, and either a fill or a refund request. -/
def isUbaOutflow (flow : UbaFlow) : Bool :=
  !isUbaInflow flow && (outflowIsFill flow || outflowIsRefund flow)

/-- `UBASpokeBalanceType`: snapshot of one side's flow history. -/
structure UBASpokeBalanceType where
  chainId : Int
  recentRequestFlow : List UbaFlow
  lastValidatedRunningBalance : Option Int
deriving DecidableEq, Repr

/-- `UBAFlowRange`: half-open index range `[startIndex, endIndex)`. -/
structure UBAFlowRange where
  startIndex : Nat
  endIndex : Nat
deriving DecidableEq, Repr

/-- The two spoke snapshots a `UBAFeeCalculator` instance holds. -/
structure UBAFeeCalculatorState where
  originSpoke : UBASpokeBalanceType
  refundSpoke : UBASpokeBalanceType
deriving DecidableEq, Repr

/-- Which side of a running-balance computation is requested. -/
inductive FlowSide
  | origin
  | refund
deriving DecidableEq, Repr

/-- `UBAFeeCalculator.calculateRecentRunningBalance`: fold the (optionally
sliced) request flow over the last validated running balance, adding
inflows and subtracting outflows. -/
def calculateRecentRunningBalance (st : UBAFeeCalculatorState) (side : FlowSide)
    (flowRange : Option UBAFlowRange) : Int :=
  let spoke := match side with
    | .origin => st.originSpoke
    | .refund => st.refundSpoke
  let flow := match flowRange with
    | some r => (spoke.recentRequestFlow.take r.endIndex).drop r.startIndex
    | none => spoke.recentRequestFlow
  flow.foldl
    (fun acc flow =>
      if isUbaInflow flow then acc + flow.amount
      else if isUbaOutflow flow then acc - flow.amount
      else acc)
    (spoke.lastValidatedRunningBalance.getD 0)

/-- The signed contribution of a single flow record to a running balance:
inflows add their amount, outflows subtract it, untagged records
contribute nothing. -/
def flowContribution (flow : UbaFlow) : Int :=
  if isUbaInflow flow then flow.amount
  else if isUbaOutflow flow then -flow.amount
  else 0

/-- A concrete inflow record of the given amount. -/
def mkInflow (amount : Int) : UbaFlow :=
  { amount := amount, quoteTimestamp := some 1, isSlowRelay := none, fillBlock := none }

/-- A concrete slow-relay outflow record of the given amount. -/
def mkOutflow (amount : Int) : UbaFlow :=
  { amount := amount, quoteTimestamp := none, isSlowRelay := some true, fillBlock := none }

/-- Spoke snapshot with flows `[inflow 100, outflow 30, inflow 5]` over a
last validated running balance of 0. -/
def exampleSpoke : UBASpokeBalanceType :=
  { chainId := 10,
    recentRequestFlow := [mkInflow 100, mkOutflow 30, mkInflow 5],
    lastValidatedRunningBalance := some 0 }

/-- C7: the running balance is the fold of the (optionally sliced) flow
list over the last validated running balance (0 when absent), each record
contributing `+amount` when it is an inflow (quote timestamp), `-amount`
when it is an outflow (slow-relay or refund marker) and nothing otherwise;
no record is both an inflow and an outflow; and the example flows
`[inflow 100, outflow 30, inflow 5]` over balance 0 yield 75. -/
theorem calculateRecentRunningBalance_fold :
    (∀ flow : UbaFlow, (isUbaInflow flow && isUbaOutflow flow) = false)
    ∧ (∀ st side flowRange, calculateRecentRunningBalance st side flowRange =
        (match flowRange with
          | some r => (((match side with
              | .origin => st.originSpoke
              | .refund => st.refundSpoke).recentRequestFlow.take r.endIndex).drop r.startIndex)
          | none => (match side with
              | .origin => st.originSpoke
              | .refund => st.refundSpoke).recentRequestFlow).foldl
          (fun acc flow => acc + flowContribution flow)
          ((match side with
            | .origin => st.originSpoke
            | .refund => st.refundSpoke).lastValidatedRunningBalance.getD 0))
    ∧ calculateRecentRunningBalance
        { originSpoke := exampleSpoke, refundSpoke := exampleSpoke } .origin none = 75 := by
  refine ⟨?_, ?_, by decide⟩
  · intro flow
    by_cases h : isUbaInflow flow
    · simp [isUbaOutflow, h]
    · simp [isUbaOutflow, h]
  · intro st side flowRange
    unfold calculateRecentRunningBalance
    have hstep : (fun (acc : Int) (flow : UbaFlow) =>
        if isUbaInflow flow then acc + flow.amount
        else if isUbaOutflow flow then acc - flow.amount
        else acc) =
        fun acc flow => acc + flowContribution flow := by
      funext acc flow
      unfold flowContribution
      by_cases h1 : isUbaInflow flow
      · simp [h1]
      · by_cases h2 : isUbaOutflow flow
        · simp [h1, h2]
          omega
        · simp [h1, h2]
    rw [hstep]

/-! ## Token ingestion inside `HubPoolClient.update()` -/

/-- Whether the accumulated token list already holds a token with the same
symbol (the duplicate test `update()` performs before appending). -/
def tokenSymbolPresent (l1Tokens : List L1Token) (info : L1Token) : Bool :=
  l1Tokens.any fun token => token.symbol == info.symbol

/-- The token-ingestion loop of `HubPoolClient.update()`: for each fetched
token info, skip it when a token with the same symbol is already present,
append it when its decimals lie in `(0, 18]`, and throw otherwise. -/
def ingestTokens (l1Tokens : List L1Token) : List L1Token → Except String (List L1Token)
  | [] => .ok l1Tokens
  | info :: rest =>
    if tokenSymbolPresent l1Tokens info then ingestTokens l1Tokens rest
    else if info.decimals > 0 && info.decimals ≤ 18 then
      ingestTokens (l1Tokens ++ [info]) rest
    else .error ("Unsupported HubPool token: " ++ info.symbol)

/-- A token already accepted into the ledger. -/
def acceptedToken : L1Token := { address := "0xAAA", symbol := "TKN", decimals := 6 }

/-- A freshly enabled token with out-of-range decimals but a symbol that
collides with `acceptedToken`. -/
def collidingBadToken : L1Token := { address := "0xBBB", symbol := "TKN", decimals := 19 }

/-- Counterexample to C9: `collidingBadToken` has decimals outside
`(0, 18]`, yet ingesting it into a ledger that already holds a token with
the same symbol produces no `UnsupportedToken` failure — the token is
silently skipped, so out-of-range tokens are not always rejected. -/
theorem ingestTokens_not_always_rejecting :
    (collidingBadToken.decimals > 0 && collidingBadToken.decimals ≤ 18) = false
    ∧ ingestTokens [acceptedToken] [collidingBadToken] = .ok [acceptedToken] := by
  decide

/-- C9 (amended): during ingestion, a token whose symbol is not yet in the
token list and whose decimals lie outside `(0, 18]` is rejected with an
`UnsupportedToken` failure; a token with a fresh symbol and decimals in
`(0, 18]` is appended; a token whose symbol is already present is skipped
unexamined; and every token of a successful result either was already in
the list or is one of the ingested tokens with decimals in `(0, 18]` —
never a coerced variant. -/
theorem ingestTokens_spec (l1Tokens : List L1Token) (info : L1Token)
    (rest : List L1Token) :
    (tokenSymbolPresent l1Tokens info = false →
      ((info.decimals > 0 && info.decimals ≤ 18) = false →
        ingestTokens l1Tokens (info :: rest) =
          .error ("Unsupported HubPool token: " ++ info.symbol))
      ∧ ((info.decimals > 0 && info.decimals ≤ 18) = true →
        ingestTokens l1Tokens (info :: rest) = ingestTokens (l1Tokens ++ [info]) rest))
    ∧ (tokenSymbolPresent l1Tokens info = true →
      ingestTokens l1Tokens (info :: rest) = ingestTokens l1Tokens rest)
    ∧ (∀ tokenInfo result, ingestTokens l1Tokens tokenInfo = .ok result →
        ∀ t, t ∈ result → t ∈ l1Tokens ∨
          (t ∈ tokenInfo ∧ (t.decimals > 0 && t.decimals ≤ 18) = true)) := by
  refine ⟨?_, ?_, ?_⟩
  · intro habsent
    constructor
    · intro hbad
      simp [ingestTokens, habsent, hbad]
    · intro hgood
      simp [ingestTokens, habsent, hgood]
  · intro hpresent
    simp [ingestTokens, hpresent]
  · intro tokenInfo
    induction tokenInfo generalizing l1Tokens with
    | nil =>
      intro result h t ht
      rw [ingestTokens] at h
      cases h
      exact Or.inl ht
    | cons info rest ih =>
      intro result h t ht
      rw [ingestTokens] at h
      by_cases hpresent : tokenSymbolPresent l1Tokens info
      · rw [if_pos hpresent] at h
        rcases ih l1Tokens result h t ht with h1 | h2
        · exact Or.inl h1
        · exact Or.inr ⟨List.mem_cons_of_mem _ h2.1, h2.2⟩
      · rw [if_neg hpresent] at h
        by_cases hgood : (info.decimals > 0 && info.decimals ≤ 18) = true
        · rw [if_pos hgood] at h
          rcases ih (l1Tokens ++ [info]) result h t ht with h1 | h2
          · rcases List.mem_append.mp h1 with h3 | h3
            · exact Or.inl h3
            · refine Or.inr ⟨?_, ?_⟩
              · rw [List.mem_singleton.mp h3]
                exact List.mem_cons_self _ _
              · rw [List.mem_singleton.mp h3]
                exact hgood
          · exact Or.inr ⟨List.mem_cons_of_mem _ h2.1, h2.2⟩
        · rw [if_neg hgood] at h
          cases h

/-- Witness for amended C9: a fresh out-of-range token is rejected, a
fresh in-range token is appended, a colliding token is skipped. -/
theorem ingestTokens_spec_witness :
    ingestTokens [] [collidingBadToken] =
      .error ("Unsupported HubPool token: " ++ collidingBadToken.symbol)
    ∧ ingestTokens [acceptedToken] (collidingBadToken :: []) = ingestTokens [acceptedToken] []
    ∧ ingestTokens [] (acceptedToken :: []) = ingestTokens [acceptedToken] [] := by
  refine ⟨?_, ?_, ?_⟩
  · exact ((ingestTokens_spec [] collidingBadToken []).1 (by decide)).1 (by decide)
  · exact (ingestTokens_spec [acceptedToken] collidingBadToken []).2.1 (by decide)
  · exact ((ingestTokens_spec [] acceptedToken []).1 (by decide)).2 (by decide)

/-! ## Running balances before a block
(`HubPoolClient.getRunningBalanceBeforeBlockForChain`) -/

/-- JavaScript `String.prototype.toLowerCase` on the ASCII range (token
addresses are hex strings): uppercase letters are shifted into lowercase,
all other characters kept. -/
def jsToLowerCase (s : String) : String :=
  ⟨s.data.map fun c =>
    if 65 ≤ c.toNat ∧ c.toNat ≤ 90 then Char.ofNat (c.toNat + 32) else c⟩

/-- The sort key of a `SortableEvent`: block number, then transaction
index, then log index. -/
def eventKey (e : ExecutedRootBundle) : Int × Int × Int :=
  (e.blockNumber, e.transactionIndex, e.logIndex)

/-- Lexicographic order on event keys. -/
def eventLexLe (a b : Int × Int × Int) : Prop :=
  a.1 < b.1 ∨ (a.1 = b.1 ∧ (a.2.1 < b.2.1 ∨ (a.2.1 = b.2.1 ∧ a.2.2 ≤ b.2.2)))

instance (a b : Int × Int × Int) : Decidable (eventLexLe a b) := by
  unfold eventLexLe
  exact inferInstance

/-- The descending event order: `e1` precedes `e2` when `e2`'s key is at
most `e1`'s. -/
def eventDescOrder (e1 e2 : ExecutedRootBundle) : Prop :=
  eventLexLe (eventKey e2) (eventKey e1)

instance : DecidableRel eventDescOrder := fun e1 e2 => by
  unfold eventDescOrder
  exact inferInstance

instance : IsTotal ExecutedRootBundle eventDescOrder :=
  ⟨fun e1 e2 => by
    unfold eventDescOrder eventLexLe eventKey
    omega⟩

instance : IsTrans ExecutedRootBundle eventDescOrder :=
  ⟨fun e1 e2 e3 h1 h2 => by
    unfold eventDescOrder eventLexLe eventKey at h1 h2 ⊢
    omega⟩

/-- The descending event order is reflexive. -/
theorem eventDescOrder_refl (e : ExecutedRootBundle) : eventDescOrder e e := by
  unfold eventDescOrder eventLexLe eventKey
  omega

/-- Modelled from the spec: `sortEventsDescending` lives in `src/utils`,
which is not part of the provided sources; per §3 of the specification,
`SortableEvent`s are total-ordered ascending by `blockNumber`, then
`transactionIndex`, then `logIndex`, and the descending sort orders by the
reverse of that relation. -/
def sortEventsDescending (events : List ExecutedRootBundle) : List ExecutedRootBundle :=
  List.insertionSort eventDescOrder events

/-- The filter `getRunningBalanceBeforeBlockForChain` selects events with:
block number at most the target block, matching chain, and the (lowercased)
token among the leaf's (lowercased) L1 tokens. -/
def runningBalanceEventMatch (block chain : Int) (l1Token : String)
    (executedLeaf : ExecutedRootBundle) : Bool :=
  decide (executedLeaf.blockNumber ≤ block) && (executedLeaf.chainId == chain) &&
    (executedLeaf.l1Tokens.map jsToLowerCase).contains (jsToLowerCase l1Token)

/-- `HubPoolClient.getRunningBalanceBeforeBlockForChain`: the running
balance entry of the most recent executed leaf at or before `block` for the
chain and token, 0 when no such leaf exists, and a thrown error when the
matched leaf's `l1Tokens` and `runningBalances` have different lengths. -/
def getRunningBalanceBeforeBlockForChain (st : HubPoolState) (block chain : Int)
    (l1Token : String) : Except String Int :=
  match (sortEventsDescending st.executedRootBundles).find?
      (runningBalanceEventMatch block chain l1Token) with
  | some mostRecentExecutedRootBundleEvent =>
    if mostRecentExecutedRootBundleEvent.l1Tokens.length ==
        mostRecentExecutedRootBundleEvent.runningBalances.length then
      .ok (mostRecentExecutedRootBundleEvent.runningBalances.getD
        (List.indexOf (jsToLowerCase l1Token)
          (mostRecentExecutedRootBundleEvent.l1Tokens.map jsToLowerCase)) 0)
    else
      .error "runningBalances and L1 token of ExecutedRootBundle event are not same length"
  | none => .ok 0

/-- In a list sorted by the descending event order, `find?` returns an
element that dominates every element of the list satisfying the
predicate. -/
theorem find?_sorted_descOrder_max {l : List ExecutedRootBundle}
    (hs : l.Sorted eventDescOrder) {p : ExecutedRootBundle → Bool}
    {x : ExecutedRootBundle} (hx : l.find? p = some x) :
    ∀ y ∈ l, p y = true → eventDescOrder x y := by
  induction l with
  | nil => cases hx
  | cons a t ih =>
    rcases List.sorted_cons.mp hs with ⟨ha, ht⟩
    rw [List.find?_cons] at hx
    cases hpa : p a with
    | true =>
      rw [hpa] at hx
      cases hx
      intro y hy hpy
      rcases List.mem_cons.mp hy with rfl | hyt
      · exact eventDescOrder_refl _
      · exact ha y hyt
    | false =>
      rw [hpa] at hx
      intro y hy hpy
      rcases List.mem_cons.mp hy with rfl | hyt
      · rw [hpy] at hpa
        cases hpa
      · exact ih ht hx y hyt hpy

/-- C6: `getRunningBalanceBeforeBlockForChain(B, chain, token)` returns 0
when no executed leaf at or before `B` matches the chain and token, and
otherwise returns the `runningBalances` entry at the token's index in
`l1Tokens` of the most recent matching leaf — an event that matches, is in
the ledger, and dominates every matching event in the event order
(blockNumber, then transactionIndex, then logIndex). -/
theorem getRunningBalanceBeforeBlockForChain_spec (st : HubPoolState)
    (block chain : Int) (l1Token : String) :
    ((∀ e ∈ st.executedRootBundles,
        runningBalanceEventMatch block chain l1Token e = false) →
      getRunningBalanceBeforeBlockForChain st block chain l1Token = .ok 0)
    ∧ ((∃ e ∈ st.executedRootBundles,
          runningBalanceEventMatch block chain l1Token e = true) →
      ∃ e, e ∈ st.executedRootBundles
        ∧ runningBalanceEventMatch block chain l1Token e = true
        ∧ (∀ e' ∈ st.executedRootBundles,
            runningBalanceEventMatch block chain l1Token e' = true → eventDescOrder e e')
        ∧ (e.l1Tokens.length = e.runningBalances.length →
          getRunningBalanceBeforeBlockForChain st block chain l1Token =
            .ok (e.runningBalances.getD
              (List.indexOf (jsToLowerCase l1Token) (e.l1Tokens.map jsToLowerCase)) 0))) := by
  have hperm := List.perm_insertionSort eventDescOrder st.executedRootBundles
  have hsorted : (sortEventsDescending st.executedRootBundles).Sorted eventDescOrder :=
    List.sorted_insertionSort eventDescOrder st.executedRootBundles
  constructor
  · intro hnone
    unfold getRunningBalanceBeforeBlockForChain
    cases hfind : (sortEventsDescending st.executedRootBundles).find?
        (runningBalanceEventMatch block chain l1Token) with
    | none => rfl
    | some e =>
      have he : e ∈ sortEventsDescending st.executedRootBundles :=
        List.mem_of_find?_eq_some hfind
      have hpe := List.find?_some hfind
      have : e ∈ st.executedRootBundles := hperm.mem_iff.mp he
      rw [hnone e this] at hpe
      cases hpe
  · rintro ⟨e0, he0, hpe0⟩
    cases hfind : (sortEventsDescending st.executedRootBundles).find?
        (runningBalanceEventMatch block chain l1Token) with
    | none =>
      have := List.find?_eq_none.mp hfind e0 (hperm.mem_iff.mpr he0)
      rw [hpe0] at this
      cases this rfl
    | some e =>
      refine ⟨e, hperm.mem_iff.mp (List.mem_of_find?_eq_some hfind),
        List.find?_some hfind, ?_, ?_⟩
      · intro e' he' hpe'
        exact find?_sorted_descOrder_max hsorted hfind e'
          (hperm.mem_iff.mpr he') hpe'
      · intro hlen
        have hbeq : (e.l1Tokens.length == e.runningBalances.length) = true := by
          rw [hlen]
          exact beq_self_eq_true _
        unfold getRunningBalanceBeforeBlockForChain
        rw [hfind]
        simp [hbeq]

/-- Witness for C6: the empty-ledger case and a one-event ledger, through
the theorem. -/
theorem getRunningBalanceBeforeBlockForChain_spec_witness :
    getRunningBalanceBeforeBlockForChain
        { proposedRootBundles := [], executedRootBundles := [], latestBlockNumber := none }
        50 1 "0xAAA" = .ok 0
    ∧ ∃ e, e ∈ ledgerThree.executedRootBundles
        ∧ runningBalanceEventMatch 50 1 "0xAAA" e = true
        ∧ (∀ e' ∈ ledgerThree.executedRootBundles,
            runningBalanceEventMatch 50 1 "0xAAA" e' = true → eventDescOrder e e')
        ∧ (e.l1Tokens.length = e.runningBalances.length →
          getRunningBalanceBeforeBlockForChain ledgerThree 50 1 "0xAAA" =
            .ok (e.runningBalances.getD
              (List.indexOf (jsToLowerCase "0xAAA") (e.l1Tokens.map jsToLowerCase)) 0)) := by
  constructor
  · exact (getRunningBalanceBeforeBlockForChain_spec
      { proposedRootBundles := [], executedRootBundles := [], latestBlockNumber := none }
      50 1 "0xAAA").1 (by intro e he; cases he)
  · exact (getRunningBalanceBeforeBlockForChain_spec ledgerThree 50 1 "0xAAA").2
      ⟨leafAt31, by decide, by decide⟩

/-! ## Deposit-id block-range resolver (src/unnamed/part_001,
`getBlockRangeForDepositId`) -/

/-- Per-call state of `getBlockRangeForDepositId`: the `queriedIds` memo
table, plus the log of block numbers for which the underlying
`numberOfDeposits` eth_call was actually issued (instrumentation of the
network boundary, used to state the memoisation property). -/
structure ResolverQueryState where
  queriedIds : List (Int × Int)
  calls : List Int
deriving DecidableEq, Repr

/-- Lookup of `queriedIds[blockNumber]`. -/
def lookupQueriedId (queriedIds : List (Int × Int)) (blockNumber : Int) : Option Int :=
  (queriedIds.find? fun p => p.1 == blockNumber).map fun p => p.2

/-- The memoising `getDepositIdAtBlock` closure of
`getBlockRangeForDepositId`: return the cached deposit id when the block
was queried before, otherwise issue the underlying counter read, cache and
log it. -/
def getDepositIdAtBlock (counter : Int → Int) (blockNumber : Int)
    (s : ResolverQueryState) : Int × ResolverQueryState :=
  match lookupQueriedId s.queriedIds blockNumber with
  | some v => (v, s)
  | none =>
    (counter blockNumber,
     { queriedIds := (blockNumber, counter blockNumber) :: s.queriedIds,
       calls := s.calls ++ [blockNumber] })

/-- The branch decision of one bisection step: narrow to the lower half
when the target is below the midpoint block's deposit-id range
`[lowRange, highRange]`, to the upper half when above it, and collapse to
the midpoint otherwise. -/
def bisectBranch (targetDepositId lowRange highRange low high mid : Int) : Int × Int :=
  if targetDepositId < lowRange then (low, mid - 1)
  else if targetDepositId > highRange then (mid + 1, high)
  else (mid, mid)

/-- The do/while bisection loop of `getBlockRangeForDepositId`, with the
memo state threaded through; the fuel is the number of remaining loop
iterations (`maxSearches - searches`). -/
def depositSearchLoop (counter : Int → Int) (targetDepositId : Int) :
    Nat → Int → Int → ResolverQueryState → (Int × Int) × ResolverQueryState
  | 0, low, high, s => ((low, high), s)
  | fuel + 1, low, high, s =>
    let mid := (low + high).fdiv 2
    let rMid := getDepositIdAtBlock counter mid s
    let rPrev := if mid == 0 then ((0 : Int), rMid.2)
      else getDepositIdAtBlock counter (mid - 1) rMid.2
    let next := bisectBranch targetDepositId rPrev.1 (rMid.1 - 1) low high mid
    if fuel != 0 && decide (next.1 < next.2) then
      depositSearchLoop counter targetDepositId fuel next.1 next.2 rPrev.2
    else (next, rPrev.2)

/-- `getBlockRangeForDepositId`: precondition checks, then the bisection
loop; paired with the final memo/call state. -/
def getBlockRangeForDepositId (targetDepositId initLow initHigh maxSearches : Int)
    (counter : Int → Int) : Except String (Int × Int) × ResolverQueryState :=
  let s0 : ResolverQueryState := { queriedIds := [], calls := [] }
  if initLow < 0 then
    (.error "Binary search failed because low must be >= 0", s0)
  else if initLow > initHigh then
    (.error "Binary search failed because low > high", s0)
  else if maxSearches ≤ 0 then
    (.error "maxSearches must be > 0", s0)
  else
    let rHigh := getDepositIdAtBlock counter initHigh s0
    if rHigh.1 < targetDepositId then
      (.error "Failed to find deposit ID", rHigh.2)
    else
      let rLow := getDepositIdAtBlock counter initLow rHigh.2
      if rLow.1 > targetDepositId then
        (.error "Failed to find deposit ID", rLow.2)
      else
        let r := depositSearchLoop counter targetDepositId maxSearches.toNat
          initLow initHigh rLow.2
        (.ok r.1, r.2)

/-- Invariant of the per-call state: every memo entry holds the counter's
value at its block, the eth_call log has no duplicates, and a block is in
the memo exactly when it was actually queried. -/
def ResolverInv (counter : Int → Int) (s : ResolverQueryState) : Prop :=
  (∀ p ∈ s.queriedIds, p.2 = counter p.1)
  ∧ s.calls.Nodup
  ∧ (∀ b : Int, (lookupQueriedId s.queriedIds b).isSome ↔ b ∈ s.calls)

/-- The empty per-call state satisfies the invariant. -/
theorem resolverInv_empty (counter : Int → Int) :
    ResolverInv counter { queriedIds := [], calls := [] } := by
  refine ⟨?_, List.nodup_nil, ?_⟩
  · intro p hp
    cases hp
  · intro b
    simp [lookupQueriedId]

/-- Unfolding the memo lookup across a fresh entry. -/
theorem lookupQueriedId_cons (b v x : Int) (q : List (Int × Int)) :
    lookupQueriedId ((b, v) :: q) x = if b == x then some v else lookupQueriedId q x := by
  unfold lookupQueriedId
  rw [List.find?_cons]
  cases h : (b == x) <;> simp [h]

/-- One memoised read returns the counter's value and preserves the
invariant. -/
theorem getDepositIdAtBlock_spec (counter : Int → Int) (b : Int)
    (s : ResolverQueryState) (hinv : ResolverInv counter s) :
    (getDepositIdAtBlock counter b s).1 = counter b
    ∧ ResolverInv counter (getDepositIdAtBlock counter b s).2 := by
  obtain ⟨hmemo, hnodup, hlog⟩ := hinv
  unfold getDepositIdAtBlock
  cases hlk : lookupQueriedId s.queriedIds b with
  | some v =>
    obtain ⟨p, hp, hpv⟩ := Option.map_eq_some'.mp hlk
    have hpmem := List.mem_of_find?_eq_some hp
    have hpb : p.1 = b := by
      have := List.find?_some hp
      rwa [beq_iff_eq] at this
    refine ⟨?_, hmemo, hnodup, hlog⟩
    rw [← hpv, hmemo p hpmem, hpb]
  | none =>
    have hnot : b ∉ s.calls := by
      intro hb
      have := (hlog b).mpr hb
      rw [hlk] at this
      cases this
    refine ⟨rfl, ?_, ?_, ?_⟩
    · intro p hp
      rcases List.mem_cons.mp hp with rfl | hpq
      · rfl
      · exact hmemo p hpq
    · rw [List.nodup_append]
      refine ⟨hnodup, List.nodup_singleton b, ?_⟩
      intro a ha hax
      rw [List.mem_singleton.mp hax] at ha
      exact hnot ha
    · intro x
      show (lookupQueriedId ((b, counter b) :: s.queriedIds) x).isSome = true ↔
        x ∈ s.calls ++ [b]
      rw [lookupQueriedId_cons]
      cases hbx : (b == x) with
      | true =>
        rw [beq_iff_eq] at hbx
        subst hbx
        simp
      | false =>
        have hbx' : b ≠ x := by
          intro h
          rw [h, beq_self_eq_true] at hbx
          cases hbx
        simp only [Bool.false_eq_true, if_false]
        rw [hlog x]
        constructor
        · intro hx
          exact List.mem_append_left _ hx
        · intro hx
          rcases List.mem_append.mp hx with hx | hx
          · exact hx
          · exact absurd (List.mem_singleton.mp hx).symm hbx'

/-- The bisection loop preserves the per-call-state invariant. -/
theorem depositSearchLoop_inv (counter : Int → Int) (t : Int) :
    ∀ (fuel : Nat) (low high : Int) (s : ResolverQueryState),
      ResolverInv counter s →
      ResolverInv counter (depositSearchLoop counter t fuel low high s).2 := by
  intro fuel
  induction fuel with
  | zero =>
    intro low high s hinv
    exact hinv
  | succ k ih =>
    intro low high s hinv
    have hmid := (getDepositIdAtBlock_spec counter ((low + high).fdiv 2) s hinv).2
    rw [depositSearchLoop]
    cases hz : (((low + high).fdiv 2 : Int) == 0) with
    | true =>
      simp only [hz, if_true]
      split
      · exact ih _ _ _ hmid
      · exact hmid
    | false =>
      have hprev := (getDepositIdAtBlock_spec counter ((low + high).fdiv 2 - 1)
        (getDepositIdAtBlock counter ((low + high).fdiv 2) s).2 hmid).2
      simp only [hz, Bool.false_eq_true, if_false]
      split
      · exact ih _ _ _ hprev
      · exact hprev

/-- State-free mirror of `depositSearchLoop`: since every memoised read
returns the counter's value, the bisection can be described purely. -/
def depositSearchLoopPure (counter : Int → Int) (targetDepositId : Int) :
    Nat → Int → Int → Int × Int
  | 0, low, high => (low, high)
  | fuel + 1, low, high =>
    let mid := (low + high).fdiv 2
    let midDepositId := counter mid
    let prevDepositId := if mid == 0 then (0 : Int) else counter (mid - 1)
    let next := bisectBranch targetDepositId prevDepositId (midDepositId - 1) low high mid
    if fuel != 0 && decide (next.1 < next.2) then
      depositSearchLoopPure counter targetDepositId fuel next.1 next.2
    else next

/-- The memoised loop computes the same block range as its pure mirror. -/
theorem depositSearchLoop_fst (counter : Int → Int) (t : Int) :
    ∀ (fuel : Nat) (low high : Int) (s : ResolverQueryState),
      ResolverInv counter s →
      (depositSearchLoop counter t fuel low high s).1 =
        depositSearchLoopPure counter t fuel low high := by
  intro fuel
  induction fuel with
  | zero =>
    intro low high s _
    rfl
  | succ k ih =>
    intro low high s hinv
    have hmid := getDepositIdAtBlock_spec counter ((low + high).fdiv 2) s hinv
    rw [depositSearchLoop, depositSearchLoopPure]
    cases hz : (((low + high).fdiv 2 : Int) == 0) with
    | true =>
      simp only [hz, if_true, hmid.1]
      rw [apply_ite Prod.fst]
      exact if_congr Iff.rfl (ih _ _ _ hmid.2) rfl
    | false =>
      have hprev := getDepositIdAtBlock_spec counter ((low + high).fdiv 2 - 1)
        (getDepositIdAtBlock counter ((low + high).fdiv 2) s).2 hmid.2
      simp only [hz, Bool.false_eq_true, if_false, hmid.1, hprev.1]
      rw [apply_ite Prod.fst]
      exact if_congr Iff.rfl (ih _ _ _ hprev.2) rfl

/-- State-free mirror of the whole resolver. -/
def getBlockRangeForDepositIdPure (targetDepositId initLow initHigh maxSearches : Int)
    (counter : Int → Int) : Except String (Int × Int) :=
  if initLow < 0 then .error "Binary search failed because low must be >= 0"
  else if initLow > initHigh then .error "Binary search failed because low > high"
  else if maxSearches ≤ 0 then .error "maxSearches must be > 0"
  else if counter initHigh < targetDepositId then .error "Failed to find deposit ID"
  else if counter initLow > targetDepositId then .error "Failed to find deposit ID"
  else .ok (depositSearchLoopPure counter targetDepositId maxSearches.toNat initLow initHigh)

/-- The resolver's result component agrees with the pure mirror. -/
theorem getBlockRangeForDepositId_fst (targetDepositId initLow initHigh maxSearches : Int)
    (counter : Int → Int) :
    (getBlockRangeForDepositId targetDepositId initLow initHigh maxSearches counter).1 =
      getBlockRangeForDepositIdPure targetDepositId initLow initHigh maxSearches counter := by
  have hH := getDepositIdAtBlock_spec counter initHigh _ (resolverInv_empty counter)
  have hL := getDepositIdAtBlock_spec counter initLow _ hH.2
  unfold getBlockRangeForDepositId getBlockRangeForDepositIdPure
  simp only [hH.1, hL.1]
  split_ifs with h1 h2 h3 h4 h5
  · rfl
  · rfl
  · rfl
  · rfl
  · rfl
  · exact congrArg Except.ok (depositSearchLoop_fst counter targetDepositId _ _ _ _ hL.2)

/-- The final per-call state of the resolver satisfies the memoisation
invariant. -/
theorem getBlockRangeForDepositId_inv (targetDepositId initLow initHigh maxSearches : Int)
    (counter : Int → Int) :
    ResolverInv counter
      (getBlockRangeForDepositId targetDepositId initLow initHigh maxSearches counter).2 := by
  have hH := getDepositIdAtBlock_spec counter initHigh _ (resolverInv_empty counter)
  have hL := getDepositIdAtBlock_spec counter initLow _ hH.2
  unfold getBlockRangeForDepositId
  simp only [hH.1, hL.1]
  split_ifs with h1 h2 h3 h4 h5
  · exact resolverInv_empty counter
  · exact resolverInv_empty counter
  · exact resolverInv_empty counter
  · exact hH.2
  · exact hL.2
  · exact depositSearchLoop_inv counter targetDepositId _ _ _ _ hL.2

/-- C4: within one resolver call the underlying counter reader is invoked
at most once per block number — the log of issued eth_calls has no
duplicates — and every cached deposit id equals the counter's value at its
block, so repeated lookups are served faithfully from the memo. -/
theorem getBlockRangeForDepositId_memoised (targetDepositId initLow initHigh maxSearches : Int)
    (counter : Int → Int) :
    (getBlockRangeForDepositId targetDepositId initLow initHigh maxSearches counter).2.calls.Nodup
    ∧ ∀ p ∈ (getBlockRangeForDepositId targetDepositId initLow initHigh
        maxSearches counter).2.queriedIds, p.2 = counter p.1 := by
  have h := getBlockRangeForDepositId_inv targetDepositId initLow initHigh maxSearches counter
  exact ⟨h.2.1, h.1⟩

/-- Either the memo already held the block (state unchanged) or exactly one
fresh eth_call for it was appended to the log. -/
theorem getDepositIdAtBlock_calls_cases (counter : Int → Int) (b : Int)
    (s : ResolverQueryState) :
    (getDepositIdAtBlock counter b s).2.calls = s.calls
    ∨ (getDepositIdAtBlock counter b s).2.calls = s.calls ++ [b] := by
  unfold getDepositIdAtBlock
  cases hlk : lookupQueriedId s.queriedIds b with
  | some v => exact Or.inl rfl
  | none => exact Or.inr rfl

/-- C3: each violated precondition fails the resolver before any bisection
step with its own error — `low < 0`, `low > high` and `maxSearches ≤ 0`
produce the three InvalidRange messages with no counter read issued at
all, while an unreachable target (`counter(high) < target` or
`counter(low) > target`) produces the TargetUnreachable message after only
the two precondition reads; in every case the result carries no bracket. -/
theorem getBlockRangeForDepositId_preconditions
    (targetDepositId initLow initHigh maxSearches : Int) (counter : Int → Int) :
    (initLow < 0 →
      getBlockRangeForDepositId targetDepositId initLow initHigh maxSearches counter =
        (.error "Binary search failed because low must be >= 0",
         { queriedIds := [], calls := [] }))
    ∧ (0 ≤ initLow → initHigh < initLow →
      getBlockRangeForDepositId targetDepositId initLow initHigh maxSearches counter =
        (.error "Binary search failed because low > high",
         { queriedIds := [], calls := [] }))
    ∧ (0 ≤ initLow → initLow ≤ initHigh → maxSearches ≤ 0 →
      getBlockRangeForDepositId targetDepositId initLow initHigh maxSearches counter =
        (.error "maxSearches must be > 0", { queriedIds := [], calls := [] }))
    ∧ (0 ≤ initLow → initLow ≤ initHigh → 0 < maxSearches →
        counter initHigh < targetDepositId →
      (getBlockRangeForDepositId targetDepositId initLow initHigh maxSearches counter).1 =
        .error "Failed to find deposit ID"
      ∧ ∀ b ∈ (getBlockRangeForDepositId targetDepositId initLow initHigh
          maxSearches counter).2.calls, b = initHigh ∨ b = initLow)
    ∧ (0 ≤ initLow → initLow ≤ initHigh → 0 < maxSearches →
        targetDepositId ≤ counter initHigh → targetDepositId < counter initLow →
      (getBlockRangeForDepositId targetDepositId initLow initHigh maxSearches counter).1 =
        .error "Failed to find deposit ID"
      ∧ ∀ b ∈ (getBlockRangeForDepositId targetDepositId initLow initHigh
          maxSearches counter).2.calls, b = initHigh ∨ b = initLow) := by
  have hH := getDepositIdAtBlock_spec counter initHigh _ (resolverInv_empty counter)
  have hcallsH : (getDepositIdAtBlock counter initHigh
      { queriedIds := [], calls := [] }).2.calls = [initHigh] := rfl
  refine ⟨?_, ?_, ?_, ?_, ?_⟩
  · intro h1
    unfold getBlockRangeForDepositId
    rw [if_pos h1]
  · intro h0 h1
    unfold getBlockRangeForDepositId
    rw [if_neg (by omega), if_pos (by omega)]
  · intro h0 h1 h2
    unfold getBlockRangeForDepositId
    rw [if_neg (by omega), if_neg (by omega), if_pos h2]
  · intro h0 h1 h2 h4
    unfold getBlockRangeForDepositId
    simp only [hH.1]
    rw [if_neg (by omega), if_neg (by omega), if_neg (by omega), if_pos h4]
    refine ⟨rfl, ?_⟩
    rw [hcallsH]
    intro b hb
    rw [List.mem_singleton.mp hb]
    exact Or.inl rfl
  · intro h0 h1 h2 h4 h5
    unfold getBlockRangeForDepositId
    simp only [hH.1]
    have hL := getDepositIdAtBlock_spec counter initLow _ hH.2
    simp only [hL.1]
    rw [if_neg (by omega), if_neg (by omega), if_neg (by omega), if_neg (by omega),
      if_pos h5]
    refine ⟨rfl, ?_⟩
    rcases getDepositIdAtBlock_calls_cases counter initLow
        (getDepositIdAtBlock counter initHigh { queriedIds := [], calls := [] }).2 with
      hc | hc
    · rw [hc, hcallsH]
      intro b hb
      rw [List.mem_singleton.mp hb]
      exact Or.inl rfl
    · rw [hc, hcallsH]
      intro b hb
      rcases List.mem_append.mp hb with hb | hb
      · rw [List.mem_singleton.mp hb]
        exact Or.inl rfl
      · rw [List.mem_singleton.mp hb]
        exact Or.inr rfl

/-- Witness for C3: each failure mode on concrete inputs, through the
theorem.  The counter maps block `b` to deposit count `b` so that target 5
is unreachable below block 5 and target -1 above block 0. -/
theorem getBlockRangeForDepositId_preconditions_witness :
    getBlockRangeForDepositId 5 (-1) 10 3 (fun b => b) =
      (.error "Binary search failed because low must be >= 0",
       { queriedIds := [], calls := [] })
    ∧ getBlockRangeForDepositId 5 7 3 3 (fun b => b) =
      (.error "Binary search failed because low > high", { queriedIds := [], calls := [] })
    ∧ getBlockRangeForDepositId 5 0 10 0 (fun b => b) =
      (.error "maxSearches must be > 0", { queriedIds := [], calls := [] })
    ∧ (getBlockRangeForDepositId 5 0 3 3 (fun b => b)).1 = .error "Failed to find deposit ID"
    ∧ (getBlockRangeForDepositId (-1) 2 10 3 (fun b => b)).1 =
      .error "Failed to find deposit ID" := by
  refine ⟨?_, ?_, ?_, ?_, ?_⟩
  · exact (getBlockRangeForDepositId_preconditions 5 (-1) 10 3 (fun b => b)).1 (by decide)
  · exact (getBlockRangeForDepositId_preconditions 5 7 3 3 (fun b => b)).2.1
      (by decide) (by decide)
  · exact (getBlockRangeForDepositId_preconditions 5 0 10 0 (fun b => b)).2.2.1
      (by decide) (by decide) (by decide)
  · exact ((getBlockRangeForDepositId_preconditions 5 0 3 3 (fun b => b)).2.2.2.1
      (by decide) (by decide) (by decide) (by decide)).1
  · exact ((getBlockRangeForDepositId_preconditions (-1) 2 10 3 (fun b => b)).2.2.2.2
      (by decide) (by decide) (by decide) (by decide) (by decide)).1

/-- Bounds on the bisection midpoint `⌊(low + high) / 2⌋`. -/
theorem fdiv2_bounds (low high : Int) (h : low ≤ high) :
    low ≤ (low + high).fdiv 2 ∧ (low + high).fdiv 2 ≤ high
    ∧ (low < high → (low + high).fdiv 2 < high) := by
  have h1 := Int.fmod_add_fdiv (low + high) 2
  have h2 := Int.fmod_nonneg' (low + high) (by norm_num : (0 : Int) < 2)
  have h3 := Int.fmod_lt_of_pos (low + high) (by norm_num : (0 : Int) < 2)
  refine ⟨by omega, by omega, fun hlt => by omega⟩

/-- Bracketing invariant of the pure bisection loop: started from
`low ≤ high` with a non-negative target, `counter (low - 1) ≤ t` (for
positive `low`) and `t ≤ counter high`, the loop's result `(l, h)` stays
inside `[low, high]`, satisfies `l ≤ h + 1` (with `l ≤ h` whenever the
entry bracket was strict), keeps `t ≤ counter h`, and keeps
`counter (l - 1) ≤ t` for positive `l`. -/
theorem depositSearchLoopPure_bracket (counter : Int → Int) (t : Int)
    (ht : 0 ≤ t) :
    ∀ (fuel : Nat) (low high : Int), 0 ≤ low → low ≤ high →
      (0 < low → counter (low - 1) ≤ t) → t ≤ counter high →
      ∀ l h, depositSearchLoopPure counter t fuel low high = (l, h) →
        0 ≤ l ∧ low ≤ l ∧ h ≤ high ∧ l ≤ h + 1 ∧ (low < high → l ≤ h)
          ∧ t ≤ counter h ∧ (0 < l → counter (l - 1) ≤ t) := by
  intro fuel
  induction fuel with
  | zero =>
    intro low high h0 hlh hlinv hhinv l h heq
    rw [depositSearchLoopPure] at heq
    injection heq with he1 he2
    subst he1
    subst he2
    exact ⟨h0, le_refl _, le_refl _, by omega, fun _ => hlh, hhinv, hlinv⟩
  | succ k ih =>
    intro low high h0 hlh hlinv hhinv l h heq
    obtain ⟨hm1, hm2, hm3⟩ := fdiv2_bounds low high hlh
    rw [depositSearchLoopPure] at heq
    by_cases hz : (((low + high).fdiv 2 : Int) == 0) = true
    · have hmid0 : (low + high).fdiv 2 = 0 := by rwa [beq_iff_eq] at hz
      simp only [hz, if_true] at heq
      have hb1 : ¬ t < (0 : Int) := by omega
      by_cases hb2 : t > counter ((low + high).fdiv 2) - 1
      · simp only [bisectBranch, if_neg hb1, if_pos hb2] at heq
        have hcmid : counter ((low + high).fdiv 2) ≤ t := by omega
        split at heq
        · rename_i hc
          simp only [Bool.and_eq_true, decide_eq_true_eq] at hc
          obtain ⟨g1, g2, g3, g4, g5, g6, g7⟩ := ih ((low + high).fdiv 2 + 1) high
            (by omega) (by omega)
            (fun _ => by
              rw [show (low + high).fdiv 2 + 1 - 1 = (low + high).fdiv 2 by omega]
              exact hcmid)
            hhinv l h heq
          exact ⟨g1, by omega, g3, g4, fun _ => g5 hc.2, g6, g7⟩
        · injection heq with he1 he2
          subst he1
          subst he2
          refine ⟨by omega, by omega, le_refl _, by omega, fun hlow => ?_, hhinv,
            fun _ => ?_⟩
          · omega
          · rw [show (low + high).fdiv 2 + 1 - 1 = (low + high).fdiv 2 by omega]
            exact hcmid
      · simp only [bisectBranch, if_neg hb1, if_neg hb2] at heq
        have hfalse : (k != 0 &&
            decide (((low + high).fdiv 2, (low + high).fdiv 2).1 <
              ((low + high).fdiv 2, (low + high).fdiv 2).2)) = false := by
          simp
        rw [hfalse] at heq
        simp only [Bool.false_eq_true, if_false] at heq
        injection heq with he1 he2
        subst he1
        subst he2
        refine ⟨by omega, hm1, hm2, by omega, fun _ => le_refl _, by omega,
          fun hpos => by omega⟩
    · have hmidne : (low + high).fdiv 2 ≠ 0 := by
        intro hc
        rw [hc] at hz
        exact hz rfl
      simp only [hz, Bool.false_eq_true, if_false] at heq
      by_cases hb1 : t < counter ((low + high).fdiv 2 - 1)
      · have hmlow : low < (low + high).fdiv 2 := by
          rcases lt_or_eq_of_le hm1 with hc | hc
          · exact hc
          · exfalso
            have hlpos : 0 < low := by omega
            have := hlinv hlpos
            rw [hc] at this
            omega
        simp only [bisectBranch, if_pos hb1] at heq
        split at heq
        · rename_i hc
          simp only [Bool.and_eq_true, decide_eq_true_eq] at hc
          obtain ⟨g1, g2, g3, g4, g5, g6, g7⟩ := ih low ((low + high).fdiv 2 - 1)
            h0 (by omega) hlinv (by omega) l h heq
          exact ⟨g1, g2, by omega, g4, fun _ => g5 hc.2, g6, g7⟩
        · injection heq with he1 he2
          subst he1
          subst he2
          refine ⟨h0, le_refl _, by omega, by omega, fun _ => by omega, by omega,
            hlinv⟩
      · by_cases hb2 : t > counter ((low + high).fdiv 2) - 1
        · simp only [bisectBranch, if_neg hb1, if_pos hb2] at heq
          have hcmid : counter ((low + high).fdiv 2) ≤ t := by omega
          split at heq
          · rename_i hc
            simp only [Bool.and_eq_true, decide_eq_true_eq] at hc
            have := ih ((low + high).fdiv 2 + 1) high (by omega) (by omega)
              (fun _ => by
                rw [show (low + high).fdiv 2 + 1 - 1 = (low + high).fdiv 2 by omega]
                exact hcmid)
              hhinv l h heq
            refine ⟨this.1, by omega, this.2.2.1, this.2.2.2.1, fun _ => ?_,
              this.2.2.2.2.2.1, this.2.2.2.2.2.2⟩
            have := this.2.2.2.2.1 hc.2
            omega
          · injection heq with he1 he2
            subst he1
            subst he2
            refine ⟨by omega, by omega, le_refl _, by omega, fun hlow => ?_, hhinv,
              fun _ => ?_⟩
            · have := hm3 hlow
              omega
            · rw [show (low + high).fdiv 2 + 1 - 1 = (low + high).fdiv 2 by omega]
              exact hcmid
        · simp only [bisectBranch, if_neg hb1, if_neg hb2] at heq
          have hfalse : (k != 0 &&
              decide (((low + high).fdiv 2, (low + high).fdiv 2).1 <
                ((low + high).fdiv 2, (low + high).fdiv 2).2)) = false := by
            simp
          rw [hfalse] at heq
          simp only [Bool.false_eq_true, if_false] at heq
          injection heq with he1 he2
          subst he1
          subst he2
          refine ⟨by omega, hm1, hm2, by omega, fun _ => le_refl _, by omega,
            fun hpos => ?_⟩
          omega

/-- A constant counter: every block has deposit count 0. -/
def cexCounterConst : Int → Int := fun _ => 0

/-- A monotone step counter: count 0 up to block 0, 3 at block 1, 5 from
block 2 on. -/
def cexCounterStep : Int → Int := fun b =>
  if b ≤ 0 then 0 else if b = 1 then 3 else 5

/-- Counterexample to C2: the resolver does not satisfy the claimed
bracketing guarantee.  With the constant-0 counter, target 0 and the
degenerate bracket `low = high = 0` (all claimed hypotheses hold), the
do/while body still runs once and returns `(1, 0)` with `l > h`; with the
step counter, target 3 and bracket `[0, 2]`, it returns the collapsed pair
`(2, 2)` although `counter 2 = 5 > 3` (refuting `counter l ≤ target`) and
`counter 1 = 3 = target` (refuting `counter (l-1) < target`). -/
theorem getBlockRangeForDepositId_bracket_counterexample :
    (¬ (∀ (counter : Int → Int) (t low high maxIter : Int),
        (∀ a b : Int, a ≤ b → counter a ≤ counter b) →
        counter low ≤ t → t ≤ counter high → 0 ≤ low → low ≤ high → 0 < maxIter →
        ∃ l h, (getBlockRangeForDepositId t low high maxIter counter).1 = .ok (l, h)
          ∧ l ≤ h ∧ counter l ≤ t
          ∧ (l = h → 0 < l → counter (l - 1) < t ∧ t ≤ counter l)))
    ∧ (∀ a b : Int, a ≤ b → cexCounterConst a ≤ cexCounterConst b)
    ∧ (getBlockRangeForDepositId 0 0 0 1 cexCounterConst).1 = .ok (1, 0)
    ∧ (∀ a b : Int, a ≤ b → cexCounterStep a ≤ cexCounterStep b)
    ∧ (getBlockRangeForDepositId 3 0 2 10 cexCounterStep).1 = .ok (2, 2)
    ∧ decide (cexCounterStep 2 ≤ 3) = false
    ∧ decide (cexCounterStep 1 < 3) = false := by
  refine ⟨?_, fun a b hab => le_refl 0, by decide,
    fun a b hab => by
      unfold cexCounterStep
      split_ifs <;> omega,
    by decide, by decide, by decide⟩
  intro hclaim
  obtain ⟨l, h, heq, hlh, hcl, hcoll⟩ := hclaim cexCounterStep 3 0 2 10
    (fun a b hab => by
      unfold cexCounterStep
      split_ifs <;> omega)
    (by decide) (by decide) (by decide) (by decide) (by decide)
  have hrun : (getBlockRangeForDepositId 3 0 2 10 cexCounterStep).1 = .ok (2, 2) := by
    decide
  rw [hrun] at heq
  have h2 : ((2, 2) : Int × Int) = (l, h) := Except.ok.inj heq
  obtain ⟨hl, hh⟩ := (Prod.mk.injEq _ _ _ _).mp h2
  rw [← hl] at hcl
  revert hcl
  decide

/-- C2 (amended): under the claimed hypotheses plus non-negativity of the
target, the resolver returns `.ok (l, h)` with `low ≤ l`, `h ≤ high`,
`l ≤ h + 1` (and `l ≤ h` whenever the supplied bracket was strict,
`low < high`), with `target ≤ counter h`, and with
`counter (l - 1) ≤ target` whenever `l > 0`; hence a collapsed result
`l = h > 0` satisfies `counter (l-1) ≤ target ≤ counter l`. -/
theorem getBlockRangeForDepositId_bracket (counter : Int → Int)
    (t initLow initHigh maxSearches : Int)
    (hmono : ∀ a b : Int, a ≤ b → counter a ≤ counter b)
    (ht : 0 ≤ t) (hlow : counter initLow ≤ t) (hhigh : t ≤ counter initHigh)
    (h0 : 0 ≤ initLow) (hle : initLow ≤ initHigh) (hms : 0 < maxSearches) :
    ∃ l h, (getBlockRangeForDepositId t initLow initHigh maxSearches counter).1 =
        .ok (l, h)
      ∧ initLow ≤ l ∧ h ≤ initHigh ∧ l ≤ h + 1 ∧ (initLow < initHigh → l ≤ h)
      ∧ t ≤ counter h ∧ (0 < l → counter (l - 1) ≤ t)
      ∧ (l = h → 0 < l → counter (l - 1) ≤ t ∧ t ≤ counter l) := by
  rcases hloop : depositSearchLoopPure counter t maxSearches.toNat initLow initHigh
    with ⟨l, h⟩
  obtain ⟨g1, g2, g3, g4, g5, g6, g7⟩ := depositSearchLoopPure_bracket counter t ht
    maxSearches.toNat initLow initHigh h0 hle
    (fun hpos => le_trans (hmono (initLow - 1) initLow (by omega)) hlow)
    hhigh l h hloop
  refine ⟨l, h, ?_, g2, g3, g4, g5, g6, g7, fun hlheq hlpos => ⟨g7 hlpos, ?_⟩⟩
  · rw [getBlockRangeForDepositId_fst]
    unfold getBlockRangeForDepositIdPure
    rw [if_neg (by omega), if_neg (by omega), if_neg (by omega),
      if_neg (by omega), if_neg (by omega), hloop]
  · rw [hlheq]
    exact g6

/-- Witness for amended C2: the identity counter, target 5, bracket
`[0, 10]`, 64 iterations. -/
theorem getBlockRangeForDepositId_bracket_witness :
    ∃ l h, (getBlockRangeForDepositId 5 0 10 64 (fun b => b)).1 = .ok (l, h)
      ∧ (0 : Int) ≤ l ∧ h ≤ 10 ∧ l ≤ h + 1 ∧ ((0 : Int) < 10 → l ≤ h)
      ∧ 5 ≤ (fun b : Int => b) h ∧ (0 < l → (fun b : Int => b) (l - 1) ≤ 5)
      ∧ (l = h → 0 < l →
          (fun b : Int => b) (l - 1) ≤ 5 ∧ 5 ≤ (fun b : Int => b) l) :=
  getBlockRangeForDepositId_bracket (fun b => b) 5 0 10 64
    (fun a b hab => hab) (by decide) (by decide) (by decide) (by decide)
    (by decide) (by decide)

end Across
